import Mathlib

/-!
Verification of the rotation draw engine and persisted state store of the
cousins-chama single-page application.

The repository contains two copies of the component: `src/src/app/page.tsx`
and a second, unnamed copy (`src/unnamed/part_000`).  The copies agree on
`loadStoredData`, `spinWheel` and `resetChama`; they differ inside
`saveMonth`: only the unnamed copy applies the February override, and the
two copies compute the avatar glyphs of the new monthly record differently.
Both variants of `saveMonth` are embedded below (`saveMonth` for the
unnamed copy, `saveMonthPage` for `page.tsx`).

Modelling conventions:
- JavaScript arrays become Lean lists, strings stay strings.
- Timestamps (ISO-8601 date strings and `Date.getTime()` values) are
  modelled by their integer millisecond values.
- `Math.floor(Math.random()*slices)` is modelled by an arbitrary index
  parameter; the source guarantees the index lies in `[0, slices)`, and an
  out-of-range index is mapped to rejection (`none`).
- The visual state (`rotation`, `currentPick`, `pointerBounce`) is omitted;
  `spinning` is kept, and the completed spin (the 3-second timeout callback)
  is folded into one atomic transition that restores `spinning := false`.
- A JavaScript `undefined` read out of bounds of the avatar array is
  modelled by the marker string `jsUndefined`.
- `String.prototype.trim` and `String.prototype.toLowerCase` are modelled
  over the underlying character list (`jsTrim`, `jsToLower`); this agrees
  with JavaScript on the ASCII member names the application handles.
-/

/-- Model of `String.prototype.trim`: whitespace stripped from both ends. -/
def jsTrim (s : String) : String :=
  ⟨(((s.data.dropWhile Char.isWhitespace).reverse.dropWhile
      Char.isWhitespace).reverse)⟩

/-- Model of `String.prototype.toLowerCase`: character-wise lowering. -/
def jsToLower (s : String) : String :=
  ⟨s.data.map Char.toLower⟩

/-- The twelve canonical month labels (`MONTHS` in the source). -/
def MONTHS : List String :=
  ["January", "February", "March", "April", "May", "June",
   "July", "August", "September", "October", "November", "December"]

/-- Default avatar glyphs (`DEFAULT_EMOJIS` in the source). -/
def DEFAULT_EMOJIS : List String :=
  ["🦁", "🐵", "🐸", "🦊", "🐼", "🐷", "🐨", "🐯", "🐔", "🐙"]

/-- Fixed roster size (`TOTAL_MEMBERS` in the source). -/
def TOTAL_MEMBERS : Nat := 10

/-- Expiry window in days (`EXPIRY_DAYS` in the source). -/
def EXPIRY_DAYS : Int := 7

/-- Milliseconds per day, the divisor `1000*60*60*24` of the source. -/
def msPerDay : Int := 86400000

/-- Marker for a JavaScript `undefined` produced by an out-of-range array
read; it never arises under the data-model invariant that the avatar list
covers the roster. -/
def jsUndefined : String := "undefined"

/-- A monthly history record (`MonthRecord` in the source), with the
ISO date string replaced by its millisecond value. -/
structure MonthRecord where
  month : String
  pair : List String
  date : Int
  emojis : List String
deriving DecidableEq

/-- The in-memory component state: the React state variables
`names`, `emojis`, `order`, `locked`, `history`, `tempPair`, `spinning`
of `ChamaWheel`. -/
structure ChamaState where
  names : List String
  emojis : List String
  order : List String
  locked : Bool
  history : List MonthRecord
  tempPair : List String
  spinning : Bool
deriving DecidableEq

/-- Eligible candidates:
`names.filter(n => n.trim() !== "" && !order.includes(n))`. -/
def remainingNames (s : ChamaState) : List String :=
  s.names.filter (fun n => (jsTrim n != "") && !(s.order.contains n))

/-- One complete spin (`spinWheel` plus its 3-second completion callback),
parameterised by the random index.  Returns `none` when the call is
rejected by the guard `spinning || remainingNames.length === 0 ||
tempPair.length >= 2` (or when the index is out of range, which the
source's random pick never is). -/
def spinWheel (s : ChamaState) (i : Nat) : Option ChamaState :=
  if s.spinning = true ∨ (remainingNames s).length = 0 ∨ 2 ≤ s.tempPair.length then
    none
  else
    match (remainingNames s).get? i with
    | none => none
    | some winner =>
      some { s with
              locked := true,
              order := s.order ++ [winner],
              tempPair := s.tempPair ++ [winner],
              spinning := false }

/-- The trimmed, lower-cased roster
(`names.map(n => n.trim().toLowerCase())`). -/
def normalizedNames (s : ChamaState) : List String :=
  s.names.map (fun n => jsToLower (jsTrim n))

/-- Index of the override participant:
`normalized.findIndex(n => n === "dennis" || n === "denno")`, with the
JavaScript `-1` result modelled as `none`. -/
def dennisIdx (s : ChamaState) : Option Nat :=
  (normalizedNames s).findIdx? (fun n => n == "dennis" || n == "denno")

/-- Avatar glyph of one finalized winner in the unnamed copy:
`names.indexOf(name)` followed by `emojis[idx]`, with `"🎉"` when the name
is not found. -/
def emojiFor (names emojis : List String) (name : String) : String :=
  match names.findIdx? (fun x => x == name) with
  | some idx => emojis.getD idx jsUndefined
  | none => "🎉"

/-- The February override of the unnamed copy, returning the final pair and
the (possibly amended) draw order.  Outside February, or when no roster name
normalizes to "dennis"/"denno", the pending pair and the order pass through
unchanged. -/
def februaryStep (s : ChamaState) (month : String) : List String × List String :=
  if month == "February" then
    match dennisIdx s with
    | none => (s.tempPair, s.order)
    | some i =>
      let dennisName := s.names.getD i ""
      if s.tempPair.contains dennisName then
        (dennisName :: s.tempPair.filter (fun n => !(n == dennisName)), s.order)
      else
        ([dennisName, s.tempPair.getD 1 ""],
         s.order.filter (fun n => !(n == s.tempPair.getD 0 "")) ++
           [dennisName, s.tempPair.getD 1 ""])
  else (s.tempPair, s.order)

/-- `saveMonth` of the unnamed copy (`src/unnamed/part_000`): rejects with an
advisory (`false`) when fewer than two winners are pending; otherwise applies
the February override, appends one monthly record whose glyphs are looked up
positionally from the roster, clears the pending pair and re-asserts the
lock.  The `Bool` result distinguishes an accepted save from the advisory
rejection. -/
def saveMonth (s : ChamaState) (now : Int) : ChamaState × Bool :=
  if s.tempPair.length < 2 then (s, false)
  else
    let month := MONTHS.getD (s.history.length % 12) ""
    let fp := (februaryStep s month).1
    ({ s with
        order := (februaryStep s month).2,
        history := s.history ++
          [{ month := month, pair := fp, date := now,
             emojis := fp.map (emojiFor s.names s.emojis) }],
        tempPair := [],
        locked := true }, true)

/-- `saveMonth` of `src/src/app/page.tsx`: no February override, and the
record glyphs come from `tempPair.map((_, i) => emojis[i] || "🎉")`, i.e.
the avatar at the pair index (with `"🎉"` for a missing or empty glyph). -/
def saveMonthPage (s : ChamaState) (now : Int) : ChamaState × Bool :=
  if s.tempPair.length < 2 then (s, false)
  else
    let month := MONTHS.getD (s.history.length % 12) ""
    ({ s with
        history := s.history ++
          [{ month := month, pair := s.tempPair, date := now,
             emojis := (List.range s.tempPair.length).map (fun i =>
               let e := s.emojis.getD i ""
               if e == "" then "🎉" else e) }],
        tempPair := [],
        locked := true }, true)

/-- `resetChama`: restores the canonical empty roster, clearing order,
pending pair, lock and history (the visual fields it also clears are not in
the model; `spinning` is not touched by the source). -/
def resetChama (s : ChamaState) : ChamaState :=
  { names := List.replicate TOTAL_MEMBERS "",
    emojis := DEFAULT_EMOJIS,
    order := [],
    locked := false,
    history := [],
    tempPair := [],
    spinning := s.spinning }

/-- The canonical empty snapshot: 10 blank names, default avatar set, empty
order, unlocked, empty history, nothing pending, no spin in flight. -/
def chamaInit : ChamaState :=
  { names := List.replicate TOTAL_MEMBERS "",
    emojis := DEFAULT_EMOJIS,
    order := [],
    locked := false,
    history := [],
    tempPair := [],
    spinning := false }

/-- States reachable from the canonical empty snapshot by any sequence of
draw, finalize and reset operations. -/
inductive Reachable : ChamaState → Prop where
  | init : Reachable chamaInit
  | draw {s s' : ChamaState} {i : Nat} :
      Reachable s → spinWheel s i = some s' → Reachable s'
  | save {s : ChamaState} {now : Int} :
      Reachable s → Reachable (saveMonth s now).1
  | reset {s : ChamaState} : Reachable s → Reachable (resetChama s)

/-- States reachable from the canonical empty snapshot by successful draws
interleaved with finalize calls (no reset). -/
inductive ReachableDF : ChamaState → Prop where
  | init : ReachableDF chamaInit
  | draw {s s' : ChamaState} {i : Nat} :
      ReachableDF s → spinWheel s i = some s' → ReachableDF s'
  | save {s : ChamaState} {now : Int} :
      ReachableDF s → ReachableDF (saveMonth s now).1

/-- A dynamically-typed JSON value as held in the stored blob. -/
inductive JVal where
  | jnull
  | jbool (b : Bool)
  | jnum (n : Int)
  | jstr (s : String)
  | jarr (elems : List JVal)
  | jobj (fields : List (String × JVal))

/-- JavaScript truthiness of a dynamic value (`Boolean(x)`; note that any
array and any object are truthy). -/
def truthy : JVal → Bool
  | .jnull => false
  | .jbool b => b
  | .jnum n => !(n == 0)
  | .jstr s => !(s == "")
  | .jarr _ => true
  | .jobj _ => true

/-- `Array.isArray` on a dynamic value. -/
def isArr : JVal → Bool
  | .jarr _ => true
  | _ => false

/-- `Array.isArray(v) ? v : d` — the per-field shallow check of the loader. -/
def asArr (v : JVal) (d : List JVal) : List JVal :=
  match v with
  | .jarr xs => xs
  | _ => d

/-- The parsed stored blob (`JSON.parse(raw)`), field by field.  A `savedAt`
of `some t` models a truthy date string parsing to millisecond value `t`;
`none` models an absent or falsy `savedAt`. -/
structure ParsedBlob where
  names : JVal
  emojis : JVal
  order : JVal
  locked : JVal
  history : JVal
  savedAt : Option Int

/-- The snapshot `loadStoredData` returns, at runtime truth: array fields
kept from a blob hold whatever dynamic values the blob held. -/
structure LoadedData where
  names : List JVal
  emojis : List JVal
  order : List JVal
  locked : Bool
  history : List JVal
  savedAt : Int

/-- Default `names`: ten blank strings. -/
def defaultNamesJ : List JVal := List.replicate TOTAL_MEMBERS (JVal.jstr "")

/-- Default `emojis`: the default avatar glyphs. -/
def defaultEmojisJ : List JVal := DEFAULT_EMOJIS.map JVal.jstr

/-- The all-defaults snapshot returned for an absent, unparsable or expired
blob. -/
def defaultLoaded (now : Int) : LoadedData :=
  { names := defaultNamesJ,
    emojis := defaultEmojisJ,
    order := [],
    locked := false,
    history := [],
    savedAt := now }

/-- The per-field validated snapshot built from a present, fresh blob
(the `return` inside the `try` block of `loadStoredData`). -/
def validateFields (p : ParsedBlob) (now : Int) : LoadedData :=
  { names := asArr p.names defaultNamesJ,
    emojis := asArr p.emojis defaultEmojisJ,
    order := asArr p.order [],
    locked := truthy p.locked,
    history := asArr p.history [],
    savedAt := p.savedAt.getD now }

/-- `loadStoredData`, over an optional stored blob (`none` folds together an
absent and an unparsable blob, both of which reach the `catch`) and the
current time in milliseconds.  The `Bool` records whether a delete
(`localStorage.removeItem`) was issued against the persistence substrate. -/
def loadStoredData (stored : Option ParsedBlob) (now : Int) :
    LoadedData × Bool :=
  match stored with
  | none => (defaultLoaded now, false)
  | some p =>
    match p.savedAt with
    | some t =>
      if now - t > EXPIRY_DAYS * msPerDay then (defaultLoaded now, true)
      else (validateFields p now, false)
    | none => (validateFields p now, false)

/-- A dynamic value of the shape "sequence of text". -/
def isTextSeq : JVal → Bool
  | .jarr xs => xs.all (fun v => match v with | .jstr _ => true | _ => false)
  | _ => false

/-- A dynamic value of the shape "sequence of records". -/
def isRecordSeq : JVal → Bool
  | .jarr xs => xs.all (fun v => match v with | .jobj _ => true | _ => false)
  | _ => false

/-- The per-field validation that the specification describes, for
comparison with `validateFields`: each field is checked against its expected
shape (sequence-of-text, sequence-of-glyph, boolean, sequence-of-record) and
replaced by the corresponding default on mismatch. -/
def specValidateFields (p : ParsedBlob) (now : Int) : LoadedData :=
  { names := if isTextSeq p.names then asArr p.names defaultNamesJ
             else defaultNamesJ,
    emojis := if isTextSeq p.emojis then asArr p.emojis defaultEmojisJ
              else defaultEmojisJ,
    order := if isTextSeq p.order then asArr p.order [] else [],
    locked := match p.locked with | .jbool b => b | _ => false,
    history := if isRecordSeq p.history then asArr p.history [] else [],
    savedAt := p.savedAt.getD now }

/-- Roster used to exercise an accepted draw. -/
def demoDraw : ChamaState :=
  { names := ["Amina", "Baraka"], emojis := DEFAULT_EMOJIS, order := [],
    locked := false, history := [], tempPair := [], spinning := false }

/-- Blob used to exercise the expiry boundary. -/
def pExpiryDemo : ParsedBlob :=
  { names := .jnull, emojis := .jnull, order := .jnull, locked := .jnull,
    history := .jnull, savedAt := some 0 }

/-- January record preceding the February scenario. -/
def demoFebRec : MonthRecord :=
  { month := "January", pair := ["Amina", "Chiku"], date := 0,
    emojis := ["🦁", "🐸"] }

/-- February-slot state whose roster holds "Denno" while the pending
winners are Amina and Chiku. -/
def demoFeb : ChamaState :=
  { names := ["Amina", "Denno", "Chiku"], emojis := DEFAULT_EMOJIS,
    order := ["Amina", "Chiku"], locked := true, history := [demoFebRec],
    tempPair := ["Amina", "Chiku"], spinning := false }

/-- Fresh blob whose `names` field is an array of the wrong element shape
and whose `locked` field is a truthy non-boolean. -/
def pShapeDemo : ParsedBlob :=
  { names := .jarr [.jnum 1], emojis := .jnull, order := .jnull,
    locked := .jstr "yes", history := .jarr [.jobj []], savedAt := some 0 }

/-- Non-February state on which the two finalize copies disagree: the
page.tsx copy records the first two roster avatars, the unnamed copy
records each winner's own avatar. -/
def demoStatePair : ChamaState :=
  { names := ["Alice", "Bob"], emojis := ["🦁", "🐵"],
    order := ["Bob", "Alice"], locked := true, history := [],
    tempPair := ["Bob", "Alice"], spinning := false }

/-- History records with their avatar glyphs erased, for comparing the two
finalize copies up to glyph computation. -/
def stripEmojis (s : ChamaState) : ChamaState :=
  { s with history := s.history.map (fun r => { r with emojis := [] }) }

/-- No roster name normalizes (trimmed, lower-cased) to the override names
"dennis" or "denno". -/
def noDennis (N : List String) : Prop :=
  ∀ n ∈ N, ¬(jsToLower (jsTrim n) = "dennis" ∨ jsToLower (jsTrim n) = "denno")

/-- Scenario driver: one draw-draw-finalize cycle, with the two random
picks supplied as indices. -/
def runCycle (s : ChamaState) (i j : Nat) : Option ChamaState :=
  match spinWheel s i with
  | none => none
  | some s1 =>
    match spinWheel s1 j with
    | none => none
    | some s2 =>
      if (saveMonth s2 0).2 = true then some (saveMonth s2 0).1 else none

/-- Scenario driver: a sequence of draw-draw-finalize cycles. -/
def runCycles (s : ChamaState) : List (Nat × Nat) → Option ChamaState
  | [] => some s
  | c :: rest =>
    match runCycle s c.1 c.2 with
    | none => none
    | some s1 => runCycles s1 rest

/-- Invariant carried across completed cycles: fixed roster, empty pending
buffer, no spin in flight, duplicate-free draw order drawn from the roster
with two entries per completed month, and a history covering the month
labels in calendar sequence. -/
def CycleInv (N : List String) (k : Nat) (s : ChamaState) : Prop :=
  s.names = N ∧ s.tempPair = [] ∧ s.spinning = false ∧
  s.order.Nodup ∧ s.order ⊆ N ∧ s.order.length = 2 * k ∧
  s.history.length = k ∧ s.history.map MonthRecord.month = MONTHS.take k

/-- A locked-open cycle-set start: a fresh roster with default avatars and
nothing drawn, pending or saved. -/
def startState (N : List String) : ChamaState :=
  { names := N, emojis := DEFAULT_EMOJIS, order := [], locked := false,
    history := [], tempPair := [], spinning := false }

/-- Concrete ten-name roster for the cycle scenario. -/
def demoNames : List String :=
  ["Amina", "Baraka", "Chiku", "Daudi", "Esta", "Furaha", "Gideon",
   "Halima", "Imani", "Juma"]

/-- Index choices for five cycles: always the first remaining name. -/
def demoCycles : List (Nat × Nat) := [(0, 0), (0, 0), (0, 0), (0, 0), (0, 0)]

/-- The state the five-cycle demo run ends in. -/
def demoFinal : ChamaState :=
  (runCycles (startState demoNames) demoCycles).getD chamaInit

lemma spinWheel_chamaInit (i : Nat) : spinWheel chamaInit i = none := by
  have h : remainingNames chamaInit = [] := by decide
  simp [spinWheel, h]

lemma reach_eq_init {s : ChamaState} (h : Reachable s) : s = chamaInit := by
  induction h with
  | init => rfl
  | draw hr hs ih =>
    subst ih
    rw [spinWheel_chamaInit] at hs
    exact Option.noConfusion hs
  | save hr ih => subst ih; rfl
  | reset hr ih => subst ih; rfl

lemma reachDF_eq_init {s : ChamaState} (h : ReachableDF s) : s = chamaInit := by
  induction h with
  | init => rfl
  | draw hr hs ih =>
    subst ih
    rw [spinWheel_chamaInit] at hs
    exact Option.noConfusion hs
  | save hr ih => subst ih; rfl

/-- C2: in every state reachable from the canonical empty snapshot by draw,
finalize and reset operations, every element of the draw order is a
non-empty name of the current roster and the draw order has no duplicates.
(From the all-blank canonical roster no draw is ever accepted, so the
reachable draw order is always empty.) -/
theorem reachable_order_invariant (s : ChamaState) (h : Reachable s) :
    (∀ n ∈ s.order, n ≠ "" ∧ n ∈ s.names) ∧ s.order.Nodup := by
  have he := reach_eq_init h
  subst he
  refine ⟨fun n hn => ?_, List.nodup_nil⟩
  simp [chamaInit] at hn

theorem reachable_order_invariant_witness :
    Reachable chamaInit ∧ chamaInit.order.Nodup :=
  ⟨Reachable.init, (reachable_order_invariant chamaInit Reachable.init).2⟩

/-- C4: in every reachable state, a finalize call with a pending buffer of
size other than two performs no state change and only signals the advisory
condition (the `false` result). -/
theorem saveMonth_rejects_non_pair (s : ChamaState) (now : Int)
    (h : Reachable s) (hne : s.tempPair.length ≠ 2) :
    saveMonth s now = (s, false) := by
  have he := reach_eq_init h
  subst he
  rfl

theorem saveMonth_rejects_non_pair_witness :
    Reachable chamaInit ∧ chamaInit.tempPair.length ≠ 2 ∧
      saveMonth chamaInit 0 = (chamaInit, false) :=
  ⟨Reachable.init, by decide,
   saveMonth_rejects_non_pair chamaInit 0 Reachable.init (by decide)⟩

/-- C5: after any sequence of successful draws interleaved with accepted
finalize calls starting from the canonical empty snapshot, the draw order
length equals twice the history length plus the pending buffer length. -/
theorem successful_draws_count (s : ChamaState) (h : ReachableDF s) :
    s.order.length = 2 * s.history.length + s.tempPair.length := by
  have he := reachDF_eq_init h
  subst he
  rfl

theorem successful_draws_count_witness :
    ReachableDF chamaInit ∧
      chamaInit.order.length =
        2 * chamaInit.history.length + chamaInit.tempPair.length :=
  ⟨ReachableDF.init, successful_draws_count chamaInit ReachableDF.init⟩

/-- C3: whenever a draw is accepted, the selected winner is the element of
the eligible set at the chosen index; in particular it is a roster name, its
trimmed form is non-empty, and it is not already in the draw order.  The
accepting state was not spinning and had fewer than two pending winners. -/
theorem spinWheel_selects_eligible (s s' : ChamaState) (i : Nat)
    (h : spinWheel s i = some s') :
    let w := (remainingNames s).getD i ""
    w ∈ remainingNames s ∧ w ∈ s.names ∧ jsTrim w ≠ "" ∧ w ∉ s.order ∧
    s.spinning = false ∧ s.tempPair.length < 2 ∧
    s'.order = s.order ++ [w] ∧ s'.tempPair = s.tempPair ++ [w] := by
  intro w
  unfold spinWheel at h
  split at h
  · exact Option.noConfusion h
  · rename_i hguard
    push_neg at hguard
    obtain ⟨hsp, hlen, htp⟩ := hguard
    cases hget : (remainingNames s).get? i with
    | none => rw [hget] at h; exact Option.noConfusion h
    | some winner =>
      rw [hget] at h
      have hw : w = winner := by
        simp only [w, List.getD, hget, Option.getD_some]
      injection h with h
      subst h
      subst hw
      have hmem : w ∈ remainingNames s := List.get?_mem hget
      have hfil := List.mem_filter.mp hmem
      obtain ⟨hnames, hp⟩ := hfil
      rw [Bool.and_eq_true] at hp
      obtain ⟨htrim, hord⟩ := hp
      refine ⟨hmem, hnames, ?_, ?_, ?_, by omega, rfl, rfl⟩
      · exact bne_iff_ne.mp htrim
      · intro hmem2
        simp at hord
        exact hord hmem2
      · cases hb : s.spinning with
        | false => rfl
        | true => exact absurd hb hsp

theorem spinWheel_selects_eligible_witness :
    "Amina" ∈ remainingNames demoDraw ∧ "Amina" ∈ demoDraw.names ∧
    jsTrim "Amina" ≠ "" ∧ "Amina" ∉ demoDraw.order ∧
    demoDraw.spinning = false ∧ demoDraw.tempPair.length < 2 ∧
    ((spinWheel demoDraw 0).getD chamaInit).order =
      demoDraw.order ++ ["Amina"] ∧
    ((spinWheel demoDraw 0).getD chamaInit).tempPair =
      demoDraw.tempPair ++ ["Amina"] :=
  spinWheel_selects_eligible demoDraw ((spinWheel demoDraw 0).getD chamaInit)
    0 (by decide)

/-- C6: a present blob whose `savedAt` lies more than seven days before the
current time makes the loader return the all-defaults snapshot and issue a
delete against the persistence substrate; a blob seven days old or fresher
is not expired — no delete is issued and the per-field validated snapshot is
returned. -/
theorem loadStoredData_expiry (p : ParsedBlob) (now t : Int)
    (hs : p.savedAt = some t) :
    (now - t > EXPIRY_DAYS * msPerDay →
      loadStoredData (some p) now = (defaultLoaded now, true)) ∧
    (now - t ≤ EXPIRY_DAYS * msPerDay →
      loadStoredData (some p) now = (validateFields p now, false)) := by
  refine ⟨fun h => ?_, fun h => ?_⟩
  · simp [loadStoredData, hs, if_pos h]
  · simp [loadStoredData, hs, if_neg (not_lt.mpr h)]

lemma februaryStep_feb_mem {s : ChamaState} {i : Nat}
    (hi : dennisIdx s = some i)
    (hc : s.tempPair.contains (s.names.getD i "") = true) :
    februaryStep s "February" =
      (s.names.getD i "" ::
         s.tempPair.filter (fun n => !(n == s.names.getD i "")),
       s.order) := by
  have hmem : s.names[i]?.getD "" ∈ s.tempPair := by simpa using hc
  simp [februaryStep, hi, hc]
  intro hnot
  exact absurd hmem hnot

lemma februaryStep_feb_notmem {s : ChamaState} {i : Nat}
    (hi : dennisIdx s = some i)
    (hc : s.tempPair.contains (s.names.getD i "") = false) :
    februaryStep s "February" =
      ([s.names.getD i "", s.tempPair.getD 1 ""],
       s.order.filter (fun n => !(n == s.tempPair.getD 0 "")) ++
         [s.names.getD i "", s.tempPair.getD 1 ""]) := by
  have hmem : s.names[i]?.getD "" ∉ s.tempPair := by simpa using hc
  simp [februaryStep, hi, hc]
  intro hin
  exact absurd hin hmem

lemma februaryStep_feb_none {s : ChamaState} (hi : dennisIdx s = none) :
    februaryStep s "February" = (s.tempPair, s.order) := by
  simp [februaryStep, hi]

/-- C1: finalize on a February slot (history length congruent to 1 mod 12)
with pending winners `[a, b]`.  When some roster name normalizes to
"dennis"/"denno": if that name is one of the two pending winners the new
record lists it first and the draw order is unchanged; otherwise the
record pair becomes that name followed by the second pending winner, and
the draw order is amended by removing the original first pending winner and
appending the finalized pair.  With no such roster name, the pair is the
pending buffer unchanged. -/
theorem saveMonth_february_override (s : ChamaState) (now : Int)
    (a b : String) (hp : s.tempPair = [a, b])
    (hm : s.history.length % 12 = 1) :
    (∀ i, dennisIdx s = some i →
      ((s.names.getD i "" = a ∨ s.names.getD i "" = b) →
        (saveMonth s now).1.history.map MonthRecord.pair =
          s.history.map MonthRecord.pair ++
            [s.names.getD i "" ::
               [a, b].filter (fun n => !(n == s.names.getD i ""))] ∧
        (saveMonth s now).1.order = s.order) ∧
      (¬(s.names.getD i "" = a ∨ s.names.getD i "" = b) →
        (saveMonth s now).1.history.map MonthRecord.pair =
          s.history.map MonthRecord.pair ++ [[s.names.getD i "", b]] ∧
        (saveMonth s now).1.order =
          s.order.filter (fun n => !(n == a)) ++ [s.names.getD i "", b])) ∧
    (dennisIdx s = none →
      (saveMonth s now).1.history.map MonthRecord.pair =
        s.history.map MonthRecord.pair ++ [[a, b]] ∧
      (saveMonth s now).1.order = s.order) := by
  have h2 : ¬ s.tempPair.length < 2 := by rw [hp]; simp
  have hM : MONTHS.getD (s.history.length % 12) "" = "February" := by
    rw [hm]; rfl
  refine ⟨fun i hi => ⟨fun hin => ?_, fun hnin => ?_⟩, fun hnone => ?_⟩
  · have hc : s.tempPair.contains (s.names.getD i "") = true := by
      rw [hp]
      rcases hin with h | h <;> rw [h] <;> simp
    simp only [saveMonth, if_neg h2, hM, februaryStep_feb_mem hi hc]
    rw [hp]
    simp
  · have hc : s.tempPair.contains (s.names.getD i "") = false := by
      rw [hp]
      simpa using hnin
    simp only [saveMonth, if_neg h2, hM, februaryStep_feb_notmem hi hc]
    rw [hp]
    simp
  · simp only [saveMonth, if_neg h2, hM, februaryStep_feb_none hnone]
    rw [hp]
    simp

theorem saveMonth_february_override_witness :
    demoFeb.tempPair = ["Amina", "Chiku"] ∧
    demoFeb.history.length % 12 = 1 ∧
    dennisIdx demoFeb = some 1 ∧
    (saveMonth demoFeb 0).1.history.map MonthRecord.pair =
      demoFeb.history.map MonthRecord.pair ++ [["Denno", "Chiku"]] ∧
    (saveMonth demoFeb 0).1.order =
      demoFeb.order.filter (fun n => !(n == "Amina")) ++ ["Denno", "Chiku"] := by
  have h := (saveMonth_february_override demoFeb 0 "Amina" "Chiku" rfl
    (by decide)).1 1 (by decide)
  have h2 := h.2 (by decide)
  exact ⟨rfl, by decide, by decide, h2.1, h2.2⟩

theorem loadStoredData_expiry_witness :
    pExpiryDemo.savedAt = some 0 ∧
    loadStoredData (some pExpiryDemo) 604800001 =
      (defaultLoaded 604800001, true) ∧
    loadStoredData (some pExpiryDemo) 604800000 =
      (validateFields pExpiryDemo 604800000, false) :=
  ⟨rfl,
   (loadStoredData_expiry pExpiryDemo 604800001 0 rfl).1 (by decide),
   (loadStoredData_expiry pExpiryDemo 604800000 0 rfl).2 (by decide)⟩

/-- C7 counterexample: the loader does not validate fields against their
expected element shapes.  On a fresh blob whose `names` is the array
`[1]` — not a sequence of text — the loader keeps the array instead of
substituting the default, so its result differs from the shape-validating
loader the specification describes. -/
theorem loadStoredData_not_shape_validated :
    (loadStoredData (some pShapeDemo) 0).1 ≠ specValidateFields pShapeDemo 0 := by
  intro h
  have hn := congrArg (fun d => d.names.length) h
  norm_num [loadStoredData, pShapeDemo, validateFields, specValidateFields,
    asArr, isTextSeq, defaultNamesJ, TOTAL_MEMBERS, EXPIRY_DAYS,
    msPerDay] at hn

/-- C7 amended: on a present, fresh blob each field is validated
independently but only shallowly — a sequence field is kept verbatim
whenever it is an array (its elements are not checked) and defaulted
otherwise, and `locked` is coerced by JavaScript truthiness; a malformed
field never causes whole-record rejection and no delete is issued. -/
theorem loadStoredData_shallow_per_field (p : ParsedBlob) (now t : Int)
    (hs : p.savedAt = some t) (hf : now - t ≤ EXPIRY_DAYS * msPerDay) :
    (loadStoredData (some p) now).2 = false ∧
    (∀ xs, p.names = .jarr xs → (loadStoredData (some p) now).1.names = xs) ∧
    (isArr p.names = false →
      (loadStoredData (some p) now).1.names = defaultNamesJ) ∧
    (∀ xs, p.emojis = .jarr xs →
      (loadStoredData (some p) now).1.emojis = xs) ∧
    (isArr p.emojis = false →
      (loadStoredData (some p) now).1.emojis = defaultEmojisJ) ∧
    (∀ xs, p.order = .jarr xs →
      (loadStoredData (some p) now).1.order = xs) ∧
    (isArr p.order = false →
      (loadStoredData (some p) now).1.order = []) ∧
    (loadStoredData (some p) now).1.locked = truthy p.locked ∧
    (∀ xs, p.history = .jarr xs →
      (loadStoredData (some p) now).1.history = xs) ∧
    (isArr p.history = false →
      (loadStoredData (some p) now).1.history = []) := by
  have hload : loadStoredData (some p) now = (validateFields p now, false) := by
    simp [loadStoredData, hs, if_neg (not_lt.mpr hf)]
  rw [hload]
  refine ⟨rfl, ?_, ?_, ?_, ?_, ?_, ?_, rfl, ?_, ?_⟩
  · intro xs hx
    simp [validateFields, asArr, hx]
  · intro hx
    cases hv : p.names <;> simp [validateFields, asArr] <;>
      simp [isArr, hv] at hx ⊢
  · intro xs hx
    simp [validateFields, asArr, hx]
  · intro hx
    cases hv : p.emojis <;> simp [validateFields, asArr] <;>
      simp [isArr, hv] at hx ⊢
  · intro xs hx
    simp [validateFields, asArr, hx]
  · intro hx
    cases hv : p.order <;> simp [validateFields, asArr] <;>
      simp [isArr, hv] at hx ⊢
  · intro xs hx
    simp [validateFields, asArr, hx]
  · intro hx
    cases hv : p.history <;> simp [validateFields, asArr] <;>
      simp [isArr, hv] at hx ⊢

theorem loadStoredData_shallow_per_field_witness :
    pShapeDemo.savedAt = some 0 ∧
    (0 : Int) - 0 ≤ EXPIRY_DAYS * msPerDay ∧
    (loadStoredData (some pShapeDemo) 0).2 = false ∧
    (loadStoredData (some pShapeDemo) 0).1.names = [.jnum 1] ∧
    (loadStoredData (some pShapeDemo) 0).1.emojis = defaultEmojisJ ∧
    (loadStoredData (some pShapeDemo) 0).1.order = [] ∧
    (loadStoredData (some pShapeDemo) 0).1.locked = truthy pShapeDemo.locked ∧
    (loadStoredData (some pShapeDemo) 0).1.history = [.jobj []] := by
  have h := loadStoredData_shallow_per_field pShapeDemo 0 0 rfl (by decide)
  exact ⟨rfl, by decide, h.1, h.2.1 [.jnum 1] rfl,
    h.2.2.2.2.1 rfl, h.2.2.2.2.2.2.1 rfl, h.2.2.2.2.2.2.2.1,
    h.2.2.2.2.2.2.2.2.1 [.jobj []] rfl⟩

/-- C8: for every accepted finalize of the unnamed copy, on a roster whose
avatar list covers the name list, the new monthly record's glyphs are the
positional roster lookup mapped over the finalized pair: a winner found at
position `i` of the name list receives the avatar at position `i` (which
exists), and a winner absent from the roster receives the glyph "🎉". -/
theorem saveMonth_record_emojis_positional (s : ChamaState) (now : Int)
    (h2 : 2 ≤ s.tempPair.length) (hlen : s.names.length ≤ s.emojis.length) :
    ((saveMonth s now).1.history.map MonthRecord.emojis).getLast? =
      (((saveMonth s now).1.history.map MonthRecord.pair).getLast?).map
        (fun q => q.map (emojiFor s.names s.emojis)) ∧
    (∀ nm i, s.names.findIdx? (fun x => x == nm) = some i →
      i < s.emojis.length ∧
      emojiFor s.names s.emojis nm = s.emojis.getD i jsUndefined) ∧
    (∀ nm, s.names.findIdx? (fun x => x == nm) = none →
      emojiFor s.names s.emojis nm = "🎉") := by
  have h2n : ¬ s.tempPair.length < 2 := not_lt.mpr h2
  refine ⟨?_, fun nm i hfi => ?_, fun nm hfi => ?_⟩
  · simp only [saveMonth, if_neg h2n]
    simp
  · have hi := (List.findIdx?_eq_some_iff_findIdx_eq.mp hfi).1
    exact ⟨lt_of_lt_of_le hi hlen, by simp [emojiFor, hfi]⟩
  · simp [emojiFor, hfi]

theorem saveMonth_record_emojis_positional_witness :
    2 ≤ demoFeb.tempPair.length ∧
    demoFeb.names.length ≤ demoFeb.emojis.length ∧
    ((saveMonth demoFeb 0).1.history.map MonthRecord.emojis).getLast? =
      (((saveMonth demoFeb 0).1.history.map MonthRecord.pair).getLast?).map
        (fun q => q.map (emojiFor demoFeb.names demoFeb.emojis)) ∧
    emojiFor demoFeb.names demoFeb.emojis "Chiku" =
      demoFeb.emojis.getD 2 jsUndefined ∧
    emojiFor demoFeb.names demoFeb.emojis "Nobody" = "🎉" := by
  have h := saveMonth_record_emojis_positional demoFeb 0 (by decide) (by decide)
  exact ⟨by decide, by decide, h.1, (h.2.1 "Chiku" 2 (by decide)).2,
    h.2.2 "Nobody" (by decide)⟩

/-- C10 counterexample: the two source copies do not implement the same
finalize transition — on this concrete state the produced records differ
(in the avatar glyphs attributed to the winning pair). -/
theorem saveMonth_copies_differ :
    saveMonth demoStatePair 0 ≠ saveMonthPage demoStatePair 0 := by decide

/-- C10 amended: whenever the February override does not apply (the buffer
does not hold two winners, or the month slot is not February, or no roster
name normalizes to "dennis"/"denno"), the two copies of finalize agree on
acceptance, month, pair, draw order, buffer and lock — everything except
the record's avatar glyphs, which the copies compute differently. -/
theorem saveMonth_copies_agree_modulo_emojis (s : ChamaState) (now : Int)
    (h : s.tempPair.length < 2 ∨
         MONTHS.getD (s.history.length % 12) "" ≠ "February" ∨
         dennisIdx s = none) :
    stripEmojis (saveMonth s now).1 = stripEmojis (saveMonthPage s now).1 ∧
    (saveMonth s now).2 = (saveMonthPage s now).2 := by
  by_cases h2 : s.tempPair.length < 2
  · simp [saveMonth, saveMonthPage, if_pos h2]
  · have hfp : februaryStep s (MONTHS.getD (s.history.length % 12) "") =
        (s.tempPair, s.order) := by
      rcases h with h | h | h
      · exact absurd h h2
      · have hne : ¬ ((MONTHS.getD (s.history.length % 12) "" == "February")
            = true) := by simpa using h
        unfold februaryStep
        rw [if_neg hne]
      · unfold februaryStep
        rw [h]
        split <;> rfl
    constructor
    · simp only [saveMonth, if_neg h2, hfp]
      simp [saveMonthPage, if_neg h2, stripEmojis]
    · simp only [saveMonth, saveMonthPage, if_neg h2]

lemma dennisIdx_eq_none {s : ChamaState} (h : noDennis s.names) :
    dennisIdx s = none := by
  unfold dennisIdx normalizedNames
  rw [List.findIdx?_eq_none_iff]
  intro x hx
  rw [List.mem_map] at hx
  obtain ⟨n, hn, rfl⟩ := hx
  have hne := h n hn
  push_neg at hne
  simp [hne.1, hne.2]

lemma spinWheel_some_spec {s s' : ChamaState} {i : Nat}
    (h : spinWheel s i = some s') :
    ∃ w, (remainingNames s).get? i = some w ∧ w ∈ remainingNames s ∧
      s' = { s with locked := true, order := s.order ++ [w],
                    tempPair := s.tempPair ++ [w], spinning := false } ∧
      s.tempPair.length < 2 := by
  unfold spinWheel at h
  split at h
  · exact Option.noConfusion h
  · rename_i hguard
    push_neg at hguard
    cases hget : (remainingNames s).get? i with
    | none => rw [hget] at h; exact Option.noConfusion h
    | some winner =>
      rw [hget] at h
      injection h with h
      exact ⟨winner, rfl, List.get?_mem hget, h.symm, hguard.2.2⟩

lemma mem_remaining_spec {s : ChamaState} {w : String}
    (h : w ∈ remainingNames s) :
    w ∈ s.names ∧ jsTrim w ≠ "" ∧ w ∉ s.order := by
  obtain ⟨hmem, hp⟩ := List.mem_filter.mp h
  rw [Bool.and_eq_true] at hp
  obtain ⟨h1, h2⟩ := hp
  refine ⟨hmem, bne_iff_ne.mp h1, fun hmem2 => ?_⟩
  simp at h2
  exact h2 hmem2

lemma saveMonth_noDennis {s : ChamaState} (now : Int)
    (h2 : ¬ s.tempPair.length < 2) (hd : dennisIdx s = none) :
    saveMonth s now =
      ({ s with
          history := s.history ++
            [{ month := MONTHS.getD (s.history.length % 12) "",
               pair := s.tempPair, date := now,
               emojis := s.tempPair.map (emojiFor s.names s.emojis) }],
          tempPair := [], locked := true }, true) := by
  have hfp : februaryStep s (MONTHS.getD (s.history.length % 12) "") =
      (s.tempPair, s.order) := by
    unfold februaryStep
    rw [hd]
    split <;> rfl
  simp only [saveMonth, if_neg h2, hfp]

lemma months_take_succ {k : Nat} (hk : k < 12) :
    MONTHS.take (k + 1) = MONTHS.take k ++ [MONTHS.getD k ""] := by
  interval_cases k <;> rfl

lemma runCycle_inv {N : List String} {k : Nat} {s s' : ChamaState}
    {i j : Nat} (hnd : noDennis N) (hk : k < 12)
    (hI : CycleInv N k s) (h : runCycle s i j = some s') :
    CycleInv N (k + 1) s' := by
  obtain ⟨hN, hTP, hSP, hND, hSub, hLen, hHL, hHM⟩ := hI
  unfold runCycle at h
  split at h
  · exact Option.noConfusion h
  · rename_i s1 h1
    split at h
    · exact Option.noConfusion h
    · rename_i s2 h2
      obtain ⟨w1, hg1, hm1, he1, _⟩ := spinWheel_some_spec h1
      obtain ⟨w2, hg2, hm2, he2, _⟩ := spinWheel_some_spec h2
      have hw1 := mem_remaining_spec hm1
      rw [he1] at hm2
      have hw2 := mem_remaining_spec hm2
      have hw2names : w2 ∈ s.names := hw2.1
      have hw2' : w2 ∉ s.order ++ [w1] := hw2.2.2
      have hs2tp : s2.tempPair = [w1, w2] := by
        rw [he2, he1]; simp [hTP]
      have hs2names : s2.names = N := by rw [he2, he1]; exact hN
      have hs2hist : s2.history = s.history := by rw [he2, he1]
      have hs2order : s2.order = s.order ++ [w1] ++ [w2] := by
        rw [he2, he1]
      have hs2spin : s2.spinning = false := by rw [he2]
      have hlen2 : ¬ s2.tempPair.length < 2 := by rw [hs2tp]; simp
      have hd : dennisIdx s2 = none :=
        dennisIdx_eq_none (by rw [hs2names]; exact hnd)
      rw [saveMonth_noDennis 0 hlen2 hd] at h
      rw [if_pos rfl] at h
      injection h with h
      subst h
      have hk12 : k % 12 = k := Nat.mod_eq_of_lt hk
      have hordernd : s2.order.Nodup := by
        rw [hs2order, List.append_assoc, List.nodup_append]
        refine ⟨hND, ?_, ?_⟩
        · simp only [List.cons_append, List.nil_append]
          rw [List.nodup_cons]
          constructor
          · intro hc
            simp at hc
            apply hw2'
            rw [hc]
            simp
          · exact List.nodup_singleton w2
        · intro a ha hb
          simp at hb
          rcases hb with rfl | rfl
          · exact hw1.2.2 ha
          · exact hw2' (List.mem_append.mpr (Or.inl ha))
      have hordersub : s2.order ⊆ N := by
        rw [hs2order]
        intro a ha
        rw [List.append_assoc] at ha
        rcases List.mem_append.mp ha with ha | ha
        · exact hSub ha
        · simp at ha
          rcases ha with rfl | rfl
          · rw [← hN]; exact hw1.1
          · rw [← hN]; exact hw2names
      have horderlen : s2.order.length = 2 * (k + 1) := by
        rw [hs2order]
        simp [hLen]
        omega
      refine ⟨hs2names, rfl, hs2spin, hordernd, hordersub, horderlen, ?_, ?_⟩
      · show (s2.history ++ _).length = k + 1
        rw [hs2hist]
        simp [hHL]
      · show (s2.history ++ _).map MonthRecord.month = MONTHS.take (k + 1)
        rw [hs2hist]
        simp only [List.map_append, List.map_cons, List.map_nil, hHM,
          hs2hist, hHL, hk12]
        exact (months_take_succ hk).symm

lemma runCycles_inv {N : List String} (hnd : noDennis N)
    (cs : List (Nat × Nat)) :
    ∀ {k : Nat} {s s' : ChamaState}, CycleInv N k s → k + cs.length ≤ 12 →
      runCycles s cs = some s' → CycleInv N (k + cs.length) s' := by
  induction cs with
  | nil =>
    intro k s s' hI hle h
    simp only [runCycles] at h
    injection h with h
    subst h
    simpa using hI
  | cons c rest ih =>
    intro k s s' hI hle h
    simp only [runCycles] at h
    cases hc : runCycle s c.1 c.2 with
    | none => rw [hc] at h; exact Option.noConfusion h
    | some s1 =>
      rw [hc] at h
      have hstep := runCycle_inv hnd (by simp at hle; omega) hI hc
      have hrest := ih hstep (by simp at hle ⊢; omega) h
      have : k + 1 + rest.length = k + (rest.length + 1) := by omega
      rw [this] at hrest
      simpa using hrest

lemma cycleInv_start (N : List String) : CycleInv N 0 (startState N) :=
  ⟨rfl, rfl, rfl, List.nodup_nil, List.nil_subset N, rfl, rfl, rfl⟩

/-- C9 amended: from a roster of ten distinct non-empty names (none
normalizing to "dennis"/"denno") and empty history, a run of five
draw-draw-finalize cycles — ten successful draws, the most the
without-replacement draw admits — yields a history of length five covering
January through May exactly once each, a duplicate-free draw order of
length ten, an empty pending buffer, and no further accepted draw. -/
theorem five_cycles_scenario (N : List String) (cs : List (Nat × Nat))
    (s' : ChamaState) (h10 : N.length = 10) (hnodup : N.Nodup)
    (hne : ∀ n ∈ N, jsTrim n ≠ "") (hdn : noDennis N) (h5 : cs.length = 5)
    (hrun : runCycles (startState N) cs = some s') :
    s'.history.length = 5 ∧
    s'.history.map MonthRecord.month =
      ["January", "February", "March", "April", "May"] ∧
    s'.order.length = 10 ∧ s'.order.Nodup ∧ s'.tempPair = [] ∧
    ∀ i, spinWheel s' i = none := by
  have hInv := runCycles_inv hdn cs (cycleInv_start N) (by omega) hrun
  have hInv5 : CycleInv N 5 s' := by
    rw [h5] at hInv
    simpa using hInv
  obtain ⟨hN, hTP, hSP, hND, hSub, hLen, hHL, hHM⟩ := hInv5
  have hsub2 : N ⊆ s'.order := by
    have hsp : List.Subperm s'.order N := hND.subperm hSub
    have hperm : s'.order.Perm N := hsp.perm_of_length_le (by omega)
    exact hperm.symm.subset
  have hrem : remainingNames s' = [] := by
    unfold remainingNames
    rw [List.filter_eq_nil_iff]
    intro a ha
    have hord : a ∈ s'.order := hsub2 (hN ▸ ha)
    intro hcon
    rw [Bool.and_eq_true] at hcon
    have := hcon.2
    simp at this
    exact this hord
  refine ⟨hHL, ?_, by omega, hND, hTP, fun i => ?_⟩
  · rw [hHM]
    rfl
  · simp [spinWheel, hrem]

/-- C9 counterexample: from a roster of ten distinct non-empty names, a run
of twelve draw-draw-finalize cycles (24 successful draws without an
intervening reset) is impossible — the without-replacement draw exhausts
the ten-entry roster after ten draws. -/
theorem no_twelve_cycles_from_ten :
    ¬ ∃ (cs : List (Nat × Nat)) (s' : ChamaState),
        cs.length = 12 ∧ runCycles (startState demoNames) cs = some s' := by
  rintro ⟨cs, s', h12, hrun⟩
  have hnd : noDennis demoNames := by unfold noDennis; decide
  have hInv := runCycles_inv hnd cs (cycleInv_start demoNames)
    (by omega) hrun
  obtain ⟨hN, hTP, hSP, hND, hSub, hLen, hHL, hHM⟩ := hInv
  have hsp : List.Subperm s'.order demoNames := hND.subperm hSub
  have hle := hsp.length_le
  rw [hLen] at hle
  have h10 : demoNames.length = 10 := rfl
  rw [h10, h12] at hle
  omega

theorem five_cycles_scenario_witness :
    demoNames.length = 10 ∧ demoNames.Nodup ∧
    (∀ n ∈ demoNames, jsTrim n ≠ "") ∧ noDennis demoNames ∧
    demoCycles.length = 5 ∧
    runCycles (startState demoNames) demoCycles = some demoFinal ∧
    demoFinal.history.length = 5 ∧
    demoFinal.history.map MonthRecord.month =
      ["January", "February", "March", "April", "May"] ∧
    demoFinal.order.length = 10 ∧ demoFinal.order.Nodup ∧
    demoFinal.tempPair = [] ∧ spinWheel demoFinal 0 = none := by
  have hrun : runCycles (startState demoNames) demoCycles = some demoFinal :=
    rfl
  have h := five_cycles_scenario demoNames demoCycles demoFinal rfl
    (by decide) (by decide) (by unfold noDennis; decide) rfl hrun
  exact ⟨rfl, by decide, by decide, by unfold noDennis; decide, rfl, hrun, h.1, h.2.1,
    h.2.2.1, h.2.2.2.1, h.2.2.2.2.1, h.2.2.2.2.2 0⟩

theorem saveMonth_copies_agree_modulo_emojis_witness :
    (demoStatePair.tempPair.length < 2 ∨
     MONTHS.getD (demoStatePair.history.length % 12) "" ≠ "February" ∨
     dennisIdx demoStatePair = none) ∧
    stripEmojis (saveMonth demoStatePair 0).1 =
      stripEmojis (saveMonthPage demoStatePair 0).1 ∧
    (saveMonth demoStatePair 0).2 = (saveMonthPage demoStatePair 0).2 := by
  have h := saveMonth_copies_agree_modulo_emojis demoStatePair 0
    (Or.inr (Or.inl (by decide)))
  exact ⟨Or.inr (Or.inl (by decide)), h.1, h.2⟩
